import Mathlib

/-!
Verification of the screenshot-extraction core of the process-mining
repository: a shallow embedding of
`src/backend/video_processing/screenshot_extractor.py` (DurationProbe,
TimestampPlanner, BoundedExtractionExecutor, ResultBinder) and of the
upload/readiness gate `_upload_file_with_retry` in
`src/backend/video_processing/gemini_client.py`, together with theorems
settling the specification's claims.

Numeric conventions: Python ints are `Int`; Python floats that only ever
hold finite decimal values produced by division and multiplication are
modelled as `ℚ`.  The value `float('inf')` substituted for an unknown
duration is modelled by an `Option ℚ` duration where `none` stands for
the infinite bound (every comparison against it is conservative in the
same direction as in the Python code).
-/

/-- Model of `ScreenshotConfig` from `screenshot_extractor.py` (only the fields the
verified functions read). -/
structure ScreenshotConfig where
  image_format : String := "jpg"
  max_concurrent_extractions : Nat := 4
  screenshot_subdir : String := "screenshots"
  dedup_threshold_ms : Int := 500
  deriving Repr, DecidableEq

/-- Model of `EventType` from `models.py`. -/
inductive EventType where
  | SCREEN_CHANGE
  | USER_ACTION
  | TRANSCRIPT
  | APPLICATION_SWITCH
  | WORKFLOW_STEP
  deriving Repr, DecidableEq

/-- Model of `ToolIdentification` from `models.py`.  The nested models are kept in
full so that the "no field other than the screenshot reference is ever
modified" claims are statable over the whole event record. -/
structure ToolIdentification where
  name : String
  type : Option String := none
  url : Option String := none
  version : Option String := none
  deriving Repr, DecidableEq

/-- Model of `WorkflowStep` from `models.py`. -/
structure WorkflowStep where
  step_number : Option Int := none
  action : Option String := none
  tool_used : Option String := none
  data_objects : List String := []
  screenshot_description : Option String := none
  deriving Repr, DecidableEq

/-- Model of `VideoEvent` from `models.py`; `confidence_score` is an opaque
rational (never computed on by the extractor). -/
structure VideoEvent where
  timestamp_ms : Option Int := none
  event_type : Option EventType := none
  tool : Option ToolIdentification := none
  description : String := ""
  workflow_step : Option WorkflowStep := none
  confidence_score : Option ℚ := none
  audio_transcript : Option String := none
  screenshot_path : Option String := none
  deriving Repr, DecidableEq

namespace ScreenshotExtractor

/-- Model of `_validate_timestamp` (screenshot_extractor.py:119-127): reject
negative timestamps, otherwise clamp to `[0, max_duration − 100]` and
convert to seconds.  `max_duration_ms = none` models the
`float('inf')` bound substituted when the duration probe failed: then
`min(timestamp_ms, inf − 100) = timestamp_ms`. -/
def validate_timestamp (timestamp_ms : Int) (max_duration_ms : Option ℚ) : Option ℚ :=
  if timestamp_ms < 0 then none
  else
    match max_duration_ms with
    | none => some ((timestamp_ms : ℚ) / 1000)
    | some d => some (max 0 (min (timestamp_ms : ℚ) (d - 100)) / 1000)

/-- The greedy left-to-right sweep inside `_deduplicate_timestamps`
(screenshot_extractor.py:137-139): keep `ts` only when it is at least
`threshold` past the last kept timestamp. -/
def dedupSweep (threshold : Int) : Int → List Int → List Int
  | _, [] => []
  | last, ts :: rest =>
    if threshold ≤ ts - last then ts :: dedupSweep threshold ts rest
    else dedupSweep threshold last rest

/-- Model of `_deduplicate_timestamps` (screenshot_extractor.py:129-141):
`sorted(set(timestamps_ms))` then the greedy sweep keeping the first
element unconditionally. -/
def deduplicate_timestamps (threshold : Int) (timestamps_ms : List Int) : List Int :=
  match List.insertionSort (· ≤ ·) timestamps_ms.dedup with
  | [] => []
  | h :: t => h :: dedupSweep threshold h t

/-- An `ExtractionTask` value of `_prepare_extraction_tasks`
(screenshot_extractor.py:255-264): the tuple
`(timestamp_sec, output_path, first_event_idx)` with the output path kept
as its directory and file-name components (`output_path.name` in the
executor is `output_name` here). -/
structure ExtractionTask where
  timestamp_sec : ℚ
  output_dir : String
  output_name : String
  event_index : Nat
  deriving Repr, DecidableEq

/-- Python `f"{n:03d}"`: decimal digits of `n`, left-padded with zeros to
at least three characters. -/
def pad3 (n : Nat) : String :=
  if n < 10 then "00" ++ toString n
  else if n < 100 then "0" ++ toString n
  else toString n

/-- Model of `dict.setdefault(ts, []).append(i)` on an association list keyed by
timestamp (insertion order preserved, append at the key's entry). -/
def addIndex : List (Int × List Nat) → Int → Nat → List (Int × List Nat)
  | [], ts, i => [(ts, [i])]
  | (k, l) :: rest, ts, i =>
    if k = ts then (k, l ++ [i]) :: rest else (k, l) :: addIndex rest ts i

/-- The `for i, event in enumerate(events)` loop of
`_prepare_extraction_tasks` (screenshot_extractor.py:247-250), with the
running index and accumulator explicit. -/
def timestamp_to_events_from (i : Nat) : List VideoEvent → List (Int × List Nat) → List (Int × List Nat)
  | [], m => m
  | e :: rest, m =>
    match e.timestamp_ms with
    | some ts => timestamp_to_events_from (i + 1) rest (addIndex m ts i)
    | none => timestamp_to_events_from (i + 1) rest m

/-- The `timestamp_to_events` dictionary of `_prepare_extraction_tasks`. -/
def timestamp_to_events (events : List VideoEvent) : List (Int × List Nat) :=
  timestamp_to_events_from 0 events []

/-- Model of `timestamp_to_events[timestamp_ms][0]` (screenshot_extractor.py:260). -/
def ownerIndex (events : List VideoEvent) (ts : Int) : Nat :=
  (((timestamp_to_events events).lookup ts).getD []).headD 0

/-- The task built for one kept timestamp
(screenshot_extractor.py:259-264): file name
`event_{first_event_idx+1:03d}_{timestamp_ms}ms.{format}` under the
screenshots directory. -/
def planTask (cfg : ScreenshotConfig) (events : List VideoEvent)
    (screenshots_dir : String) (ts : Int) (timestamp_sec : ℚ) : ExtractionTask :=
  let first_event_idx := ownerIndex events ts
  { timestamp_sec := timestamp_sec
    output_dir := screenshots_dir
    output_name := "event_" ++ pad3 (first_event_idx + 1) ++ "_" ++ toString ts
      ++ "ms." ++ cfg.image_format
    event_index := first_event_idx }

/-- Model of `_prepare_extraction_tasks` (screenshot_extractor.py:234-266):
collect timestamps with owning event indices, deduplicate, validate and
clamp each survivor, and build the task map (an association list in the
dictionary's insertion order, which is ascending timestamp order). -/
def prepare_extraction_tasks (cfg : ScreenshotConfig) (events : List VideoEvent)
    (video_duration_ms : Option ℚ) (screenshots_dir : String) :
    List (Int × ExtractionTask) :=
  let unique := deduplicate_timestamps cfg.dedup_threshold_ms
    ((timestamp_to_events events).map Prod.fst)
  unique.filterMap (fun ts =>
    match validate_timestamp ts video_duration_ms with
    | none => none
    | some timestamp_sec =>
      some (ts, planTask cfg events screenshots_dir ts timestamp_sec))

/-- The indices (counting from `i`) of the events whose timestamp is
exactly `ts`: the reference description of the per-timestamp index lists
accumulated in `timestamp_to_events`. -/
def idxsFrom (ts : Int) : Nat → List VideoEvent → List Nat
  | _, [] => []
  | i, e :: rest =>
    if e.timestamp_ms = some ts then i :: idxsFrom ts (i + 1) rest
    else idxsFrom ts (i + 1) rest

/-! ### BoundedExtractionExecutor (`_extract_single_screenshot`,
`_batch_extract_screenshots`) -/

/-- Observable behaviour of one `subprocess.run` invocation of the
capture tool: completion with an exit code, `subprocess.TimeoutExpired`,
or any other raised exception. -/
inductive ToolOutcome where
  | completed (returncode : Int)
  | timeout
  | raised
  deriving Repr, DecidableEq

/-- Environment of one capture-tool invocation: the process outcome and
whether the expected output file exists afterwards
(`output_path.exists()`). -/
structure ToolRun where
  outcome : ToolOutcome
  outputExists : Bool
  deriving Repr, DecidableEq

/-- Model of `_extract_single_screenshot` (screenshot_extractor.py:308-339):
success is zero exit code and the output file existing; timeout and any
raised exception are caught and reported as `false`, never thrown. -/
def extract_single_screenshot (run : ToolRun) : Bool :=
  match run.outcome with
  | .completed rc => rc == 0 && run.outputExists
  | .timeout => false
  | .raised => false

/-- What `future.result()` delivers for one submitted task in
`_batch_extract_screenshots`: the boolean returned by
`_extract_single_screenshot`, or a raised exception (caught by the
executor's `except` branch). -/
inductive TaskCompletion where
  | result (success : Bool)
  | raised
  deriving Repr, DecidableEq

/-- Model of `_batch_extract_screenshots` (screenshot_extractor.py:341-381) as a
function of the per-task completions: every submitted task contributes
exactly one entry to the result map, `output_path.name` on success and
`None` on failure or raised exception.  The `results` dictionary is
keyed by timestamp, so its contents do not depend on the completion
order of the thread pool; it is represented as an association list in
task order. -/
def batch_extract_screenshots (extraction_tasks : List (Int × ExtractionTask))
    (completion : Int → TaskCompletion) : List (Int × Option String) :=
  extraction_tasks.map (fun p =>
    match completion p.1 with
    | .result true => (p.1, some p.2.output_name)
    | .result false => (p.1, none)
    | .raised => (p.1, none))

/-! ### ResultBinder (`_update_events_with_screenshots`) -/

/-- The body of the `for event in events` loop of
`_update_events_with_screenshots` (screenshot_extractor.py:389-394): if
the event's timestamp is a key of the result map and the stored artifact
name is truthy (a non-empty string, Python `if screenshot_path:`), set
`screenshot_path` to the name prefixed with the screenshot
subdirectory; otherwise leave the event untouched.  An event without a
timestamp matches no integer key. -/
def update_event_with_screenshot (cfg : ScreenshotConfig)
    (screenshot_results : List (Int × Option String)) (e : VideoEvent) : VideoEvent :=
  match e.timestamp_ms with
  | none => e
  | some ts =>
    match screenshot_results.lookup ts with
    | none => e
    | some none => e
    | some (some name) =>
      if name = "" then e
      else { e with screenshot_path := some (cfg.screenshot_subdir ++ "/" ++ name) }

/-- Model of `_update_events_with_screenshots` (screenshot_extractor.py:383-394);
the Python code mutates the events in place, modelled here as returning
the updated list. -/
def update_events_with_screenshots (cfg : ScreenshotConfig) (events : List VideoEvent)
    (screenshot_results : List (Int × Option String)) : List VideoEvent :=
  events.map (update_event_with_screenshot cfg screenshot_results)

/-! ### DurationProbe (`_get_video_duration_ms`)

The ffprobe JSON report is modelled down to the values the three
strategies read; Python scalar coercions (`float`, `int`, truthiness,
string comparison) are modelled on a `PyVal` type of JSON scalars.
`float()` string parsing is modelled for plain decimal literals
(optional sign, digits, optional fractional part), the format ffprobe
emits; other accepted spellings of Python (scientific notation,
infinities, surrounding whitespace) parse to `none` here. -/

/-- A JSON scalar as read from the ffprobe report. -/
inductive PyVal where
  | vstr (s : String)
  | vnum (q : ℚ)
  | vnull
  deriving Repr, DecidableEq

/-- Python truthiness of a `PyVal`. -/
def PyVal.truthy : PyVal → Bool
  | .vstr s => s ≠ ""
  | .vnum q => q ≠ 0
  | .vnull => false

/-- Python `x == "N/A"` on a `PyVal` (only a string can equal it). -/
def PyVal.isNA : PyVal → Bool
  | .vstr s => s = "N/A"
  | _ => false

/-- Numeric value of a digit string, `0` for the empty string. -/
def natVal (cs : List Char) : ℕ :=
  cs.foldl (fun a c => 10 * a + (c.toNat - 48)) 0

/-- Python `float(s)` on a plain decimal literal: optional sign, digits,
optional `.` and fraction digits, with at least one digit overall;
`none` when `float` would raise `ValueError`. -/
def parseDecimal (s : String) : Option ℚ :=
  let cs := s.toList
  let sign : ℚ := match cs with
    | '-' :: _ => -1
    | _ => 1
  let body : List Char := match cs with
    | '-' :: r => r
    | '+' :: r => r
    | r => r
  let intPart := body.takeWhile (fun c => c ≠ '.')
  let rest := body.dropWhile (fun c => c ≠ '.')
  if intPart.all Char.isDigit then
    match rest with
    | [] => if intPart.isEmpty then none else some (sign * natVal intPart)
    | _ :: frac =>
      if frac.all Char.isDigit && !(intPart.isEmpty && frac.isEmpty) then
        some (sign * (natVal intPart + (natVal frac : ℚ) / (10 : ℚ) ^ frac.length))
      else none
  else none

/-- Python `int(s)`: optional sign then digits only. -/
def parsePyInt (s : String) : Option Int :=
  let cs := s.toList
  let sign : Int := match cs with
    | '-' :: _ => -1
    | _ => 1
  let body : List Char := match cs with
    | '-' :: r => r
    | '+' :: r => r
    | r => r
  if body.isEmpty then none
  else if body.all Char.isDigit then some (sign * natVal body)
  else none

/-- Python `int()` applied to a float: truncation toward zero. -/
def pyTrunc (q : ℚ) : Int :=
  q.num.tdiv q.den

/-- Python `float(x)` on a JSON scalar; `none` when it raises. -/
def PyVal.pyFloat : PyVal → Option ℚ
  | .vstr s => parseDecimal s
  | .vnum q => some q
  | .vnull => none

/-- Python `int(x)` on a JSON scalar; `none` when it raises. -/
def PyVal.pyInt : PyVal → Option Int
  | .vstr s => parsePyInt s
  | .vnum q => some (pyTrunc q)
  | .vnull => none

/-- The fields of one entry of `data["streams"]` that the probe reads;
`none` models an absent key (`dict.get` returning `None`). -/
structure StreamData where
  duration : Option PyVal := none
  nb_read_frames : Option PyVal := none
  r_frame_rate : Option PyVal := none
  deriving Repr, DecidableEq

/-- The parts of the ffprobe JSON report the probe reads:
`data.get("format", {}).get("duration")` and `data.get("streams", [])`. -/
structure FFprobeData where
  format_duration : Option PyVal := none
  streams : List StreamData := []
  deriving Repr, DecidableEq

/-- Observable behaviour of one ffprobe invocation:
`subprocess.TimeoutExpired`, any other raised exception, or completion
with an exit code and the JSON parse of stdout (`none` when
`json.loads` raises). -/
inductive MethodRun where
  | timeout
  | raised
  | completed (returncode : Int) (parsed : Option FFprobeData)
  deriving Repr, DecidableEq

/-- The three ffprobe invocations one probe call makes (each method runs
its own command, so each has its own observable behaviour). -/
structure ProbeEnv where
  method1 : MethodRun
  method2 : MethodRun
  method3 : MethodRun

/-- Parsing of `r_frame_rate` in method 3
(screenshot_extractor.py:210-215): `a/b` strings divide the parts
(`none` on a malformed split, unparseable part, or zero denominator,
each of which raises in Python and skips the method); other strings go
through `float`; non-strings raise `TypeError` at `"/" in frame_rate`. -/
def parseFrameRate : PyVal → Option ℚ
  | .vstr s =>
    if s.contains '/' then
      match s.splitOn "/" with
      | [num, den] =>
        match parseDecimal num, parseDecimal den with
        | some n, some d => if d = 0 then none else some (n / d)
        | _, _ => none
      | _ => none
    else parseDecimal s
  | _ => none

/-- Method 1 of `_get_video_duration_ms`
(screenshot_extractor.py:190-193): container-format metadata duration.
`none` means the method yields nothing and the loop falls through to
the next method. -/
def runMethod1 : MethodRun → Option ℚ
  | .completed rc (some data) =>
    if rc = 0 then
      match data.format_duration with
      | some v =>
        if v.truthy && !v.isNA then (v.pyFloat).map (· * 1000) else none
      | none => none
    else none
  | _ => none

/-- Method 2 of `_get_video_duration_ms`
(screenshot_extractor.py:195-200): first video stream's metadata
duration. -/
def runMethod2 : MethodRun → Option ℚ
  | .completed rc (some data) =>
    if rc = 0 then
      match data.streams with
      | [] => none
      | s :: _ =>
        match s.duration with
        | some v =>
          if v.truthy && !v.isNA then (v.pyFloat).map (· * 1000) else none
        | none => none
    else none
  | _ => none

/-- Method 3 of `_get_video_duration_ms`
(screenshot_extractor.py:202-218): frame count divided by frame rate
(zero fps raises `ZeroDivisionError`, which the method's handler turns
into a fall-through). -/
def runMethod3 : MethodRun → Option ℚ
  | .completed rc (some data) =>
    if rc = 0 then
      match data.streams with
      | [] => none
      | s :: _ =>
        match s.nb_read_frames, s.r_frame_rate with
        | some fc, some fr =>
          if fc.truthy && fr.truthy then
            match parseFrameRate fr with
            | none => none
            | some fps =>
              match fc.pyInt with
              | none => none
              | some n => if fps = 0 then none else some ((n : ℚ) / fps * 1000)
          else none
        | _, _ => none
    else none
  | _ => none

/-- Model of `_get_video_duration_ms` (screenshot_extractor.py:143-232): the
three methods in fixed order, first produced value wins, `None` when
all three fall through. -/
def get_video_duration_ms (env : ProbeEnv) : Option ℚ :=
  match runMethod1 env.method1 with
  | some d => some d
  | none =>
    match runMethod2 env.method2 with
    | some d => some d
    | none =>
      match runMethod3 env.method3 with
      | some d => some d
      | none => none

end ScreenshotExtractor

namespace GeminiClient

/-- The object returned by `genai.upload_file` / `genai.get_file`: only
the fields `_upload_file_with_retry` reads. -/
structure UploadedFile where
  name : String
  state_name : String
  deriving Repr, DecidableEq

/-- Remote-side behaviour during one attempt of
`_upload_file_with_retry`: the upload result (`none` when
`genai.upload_file` raises) and, for each poll `k ≥ 1`, the result of
the `k`-th `genai.get_file(name)` refresh (`none` when it raises). -/
structure AttemptEnv where
  upload : Option UploadedFile
  get_file : Nat → String → Option UploadedFile

/-- The `for _ in range(10)` poll loop plus the post-loop check of
`_upload_file_with_retry` (gemini_client.py:181-202): return the handle
as soon as an observation is ACTIVE; after the poll budget, return it
only if the final refresh is ACTIVE; `none` stands for every path the
surrounding `except` turns into a failed attempt (a raised refresh, or
still not ACTIVE after the budget). -/
def pollLoop (env : AttemptEnv) : Nat → Nat → UploadedFile → Option UploadedFile
  | _, 0, f => if f.state_name = "ACTIVE" then some f else none
  | k, fuel + 1, f =>
    if f.state_name = "ACTIVE" then some f
    else
      match env.get_file k f.name with
      | none => none
      | some f2 => pollLoop env (k + 1) fuel f2

/-- One submit-and-poll attempt: upload, then up to 10 polls at 1-second
intervals. -/
def runAttempt (env : AttemptEnv) : Option UploadedFile :=
  match env.upload with
  | none => none
  | some f0 => pollLoop env 1 10 f0

/-- The `for attempt in range(max_retries)` loop of
`_upload_file_with_retry` (gemini_client.py:177-209), recursing over the
remaining attempts; `none` models the terminal `raise` after the last
attempt. -/
def upload_file_with_retry_from (env : Nat → AttemptEnv) : Nat → Nat → Option UploadedFile
  | _, 0 => none
  | attempt, rem + 1 =>
    match runAttempt (env attempt) with
    | some f => some f
    | none => upload_file_with_retry_from env (attempt + 1) rem

/-- Model of `_upload_file_with_retry` with its default budget of
`max_retries = 3` attempts. -/
def upload_file_with_retry (env : Nat → AttemptEnv) (max_retries : Nat := 3) :
    Option UploadedFile :=
  upload_file_with_retry_from env 0 max_retries

/-- An environment whose remote file never becomes ACTIVE, for the
readiness-gate scenario. -/
def neverActiveEnv : Nat → AttemptEnv := fun _ =>
  { upload := some { name := "files/abc", state_name := "PROCESSING" },
    get_file := fun _ _ => some { name := "files/abc", state_name := "PROCESSING" } }

end GeminiClient

namespace ScreenshotExtractor

theorem dedupSweep_step_pos (threshold last ts : Int) (rest : List Int)
    (h : threshold ≤ ts - last) :
    dedupSweep threshold last (ts :: rest) = ts :: dedupSweep threshold ts rest := by
  simp [dedupSweep, h]

theorem dedupSweep_step_neg (threshold last ts : Int) (rest : List Int)
    (h : ¬ threshold ≤ ts - last) :
    dedupSweep threshold last (ts :: rest) = dedupSweep threshold last rest := by
  simp [dedupSweep, h]

theorem dedupSweep_pairwise (threshold : Int) (hthr : 0 ≤ threshold) (l : List Int) :
    ∀ last, List.Pairwise (fun a b => threshold ≤ b - a) (last :: dedupSweep threshold last l) := by
  induction l with
  | nil => intro last; simp [dedupSweep]
  | cons ts rest ih =>
    intro last
    by_cases h : threshold ≤ ts - last
    · rw [dedupSweep_step_pos threshold last ts rest h]
      have hih := ih ts
      rcases List.pairwise_cons.mp hih with ⟨hhead, _⟩
      refine List.pairwise_cons.mpr ⟨?_, hih⟩
      intro b hb
      rcases List.mem_cons.mp hb with rfl | hb
      · exact h
      · have := hhead b hb
        linarith
    · rw [dedupSweep_step_neg threshold last ts rest h]
      exact ih last

theorem dedupSweep_sublist (threshold : Int) (l : List Int) :
    ∀ last, List.Sublist (dedupSweep threshold last l) l := by
  induction l with
  | nil => intro last; simp [dedupSweep]
  | cons ts rest ih =>
    intro last
    by_cases h : threshold ≤ ts - last
    · rw [dedupSweep_step_pos threshold last ts rest h]
      exact (ih ts).cons₂ ts
    · rw [dedupSweep_step_neg threshold last ts rest h]
      exact ((ih last).trans (List.sublist_cons_self ts rest))

theorem deduplicate_pairwise (threshold : Int) (hthr : 0 ≤ threshold) (l : List Int) :
    List.Pairwise (fun a b => threshold ≤ b - a) (deduplicate_timestamps threshold l) := by
  unfold deduplicate_timestamps
  cases h : List.insertionSort (· ≤ ·) l.dedup with
  | nil => simp
  | cons a t => exact dedupSweep_pairwise threshold hthr t a

/-- Any element of the dedup output was one of the input timestamps. -/
theorem deduplicate_subset (threshold : Int) (l : List Int) :
    ∀ a, a ∈ deduplicate_timestamps threshold l → a ∈ l := by
  intro a ha
  unfold deduplicate_timestamps at ha
  have hperm : (List.insertionSort (· ≤ ·) l.dedup).Perm l.dedup :=
    List.perm_insertionSort (· ≤ ·) l.dedup
  have hmem : a ∈ List.insertionSort (· ≤ ·) l.dedup := by
    cases hs : List.insertionSort (· ≤ ·) l.dedup with
    | nil => rw [hs] at ha; simp at ha
    | cons h t =>
      rw [hs] at ha
      rcases List.mem_cons.mp ha with rfl | ha
      · exact hs ▸ List.mem_cons_self a t
      · have : a ∈ t := (dedupSweep_sublist threshold t h).mem ha
        exact hs ▸ List.mem_cons_of_mem h this
  exact (List.mem_dedup).mp (hperm.mem_iff.mp hmem)

/-- Claim C2: any two distinct timestamps kept by the greedy
left-to-right dedup sweep differ by at least the (non-negative)
threshold, and on the candidates `[1000, 1200, 1205, 5000]` with the
default 500ms threshold exactly `[1000, 5000]` are kept. -/
theorem C2_dedup_min_separation (thr : Int) (hthr : 0 ≤ thr) (l : List Int) :
    (∀ a ∈ deduplicate_timestamps thr l, ∀ b ∈ deduplicate_timestamps thr l,
      a ≠ b → thr ≤ |a - b|) ∧
    deduplicate_timestamps 500 [1000, 1200, 1205, 5000] = [1000, 5000] := by
  constructor
  · have hpw := deduplicate_pairwise thr hthr l
    have hpw2 : (deduplicate_timestamps thr l).Pairwise (fun a b => thr ≤ |a - b|) := by
      refine hpw.imp ?_
      intro a b hab
      calc thr ≤ b - a := hab
        _ ≤ |b - a| := le_abs_self _
        _ = |a - b| := abs_sub_comm b a
    intro a ha b hb hne
    exact hpw2.forall (fun x y hxy => by rwa [abs_sub_comm]) ha hb hne
  · decide

theorem C2_dedup_min_separation_witness :
    1000 ∈ deduplicate_timestamps 500 [1000, 1200, 1205, 5000] ∧
    5000 ∈ deduplicate_timestamps 500 [1000, 1200, 1205, 5000] ∧
    (500 : Int) ≤ |1000 - 5000| :=
  ⟨by decide, by decide,
    (C2_dedup_min_separation 500 (by decide) [1000, 1200, 1205, 5000]).1
      1000 (by decide) 5000 (by decide) (by decide)⟩

theorem validate_timestamp_known_bounds (ts : Int) (d sec : ℚ)
    (h : validate_timestamp ts (some d) = some sec) :
    0 ≤ sec * 1000 ∧ sec * 1000 ≤ max 0 (d - 100) := by
  unfold validate_timestamp at h
  by_cases hneg : ts < 0
  · simp [hneg] at h
  · simp only [hneg, if_false] at h
    have hsec : sec = max 0 (min (ts : ℚ) (d - 100)) / 1000 := by
      cases h; rfl
    have h1000 : (1000 : ℚ) ≠ 0 := by norm_num
    have hmul : sec * 1000 = max 0 (min (ts : ℚ) (d - 100)) := by
      rw [hsec, div_mul_cancel₀ _ h1000]
    constructor
    · rw [hmul]; exact le_max_left 0 _
    · rw [hmul]
      exact max_le_max (le_refl 0) (min_le_right _ _)

theorem validate_timestamp_eq_none_iff (ts : Int) (dur : Option ℚ) :
    validate_timestamp ts dur = none ↔ ts < 0 := by
  unfold validate_timestamp
  by_cases hneg : ts < 0
  · simp [hneg]
  · cases dur <;> simp [hneg]

theorem mem_prepare_iff (cfg : ScreenshotConfig) (events : List VideoEvent)
    (dur : Option ℚ) (dir : String) (ts : Int) (task : ExtractionTask) :
    (ts, task) ∈ prepare_extraction_tasks cfg events dur dir ↔
      ts ∈ deduplicate_timestamps cfg.dedup_threshold_ms
        ((timestamp_to_events events).map Prod.fst) ∧
      ∃ sec, validate_timestamp ts dur = some sec ∧
        task = planTask cfg events dir ts sec := by
  unfold prepare_extraction_tasks
  rw [List.mem_filterMap]
  constructor
  · rintro ⟨a, ha, hfa⟩
    cases hv : validate_timestamp a dur with
    | none => rw [hv] at hfa; simp at hfa
    | some sec =>
      rw [hv] at hfa
      simp only [Option.some.injEq, Prod.mk.injEq] at hfa
      obtain ⟨rfl, rfl⟩ := hfa
      exact ⟨ha, sec, hv, rfl⟩
  · rintro ⟨hmem, sec, hv, rfl⟩
    exact ⟨ts, hmem, by rw [hv]⟩

/-- Claim C1 (amended): for a known duration `d`, every kept timestamp's
clamped value (in milliseconds) lies in `[0, max 0 (d − 100)]`; in
particular, when `d ≤ 100` the timestamp is clamped to `0`, and an
`ExtractionTask` is still created for every non-negative kept
timestamp — no timestamp is ever dropped because of a too-short
duration. -/
theorem C1_clamp_range (cfg : ScreenshotConfig) (events : List VideoEvent)
    (d : ℚ) (dir : String) :
    (∀ ts task, (ts, task) ∈ prepare_extraction_tasks cfg events (some d) dir →
      0 ≤ task.timestamp_sec * 1000 ∧ task.timestamp_sec * 1000 ≤ max 0 (d - 100)) ∧
    (∀ ts, ts ∈ deduplicate_timestamps cfg.dedup_threshold_ms
        ((timestamp_to_events events).map Prod.fst) →
      0 ≤ ts → ∃ task, (ts, task) ∈ prepare_extraction_tasks cfg events (some d) dir) := by
  constructor
  · intro ts task hmem
    obtain ⟨-, sec, hv, rfl⟩ := (mem_prepare_iff cfg events (some d) dir ts task).mp hmem
    exact validate_timestamp_known_bounds ts d sec hv
  · intro ts hmem hts
    have hv : validate_timestamp ts (some d) ≠ none := by
      intro h
      rw [validate_timestamp_eq_none_iff] at h
      omega
    cases hv2 : validate_timestamp ts (some d) with
    | none => exact absurd hv2 hv
    | some sec =>
      exact ⟨planTask cfg events dir ts sec,
        (mem_prepare_iff cfg events (some d) dir ts _).mpr ⟨hmem, sec, hv2, rfl⟩⟩

/-- Claim C1 (counterexample to the claim as stated): with a known
duration of 50ms (below the 100ms epsilon) and candidate timestamp
1000, the planner does NOT drop the timestamp: it creates a task
clamped to 0 seconds, although `[0, 50 − 100]` is empty. -/
theorem C1_counterexample :
    prepare_extraction_tasks {} [{ description := "click", timestamp_ms := some 1000 }]
        (some 50) "shots" =
      [(1000, { timestamp_sec := 0, output_dir := "shots",
                output_name := "event_001_1000ms.jpg", event_index := 0 })] ∧
    ¬ (0 : ℚ) ≤ (50 : ℚ) - 100 := by
  constructor
  · simp [prepare_extraction_tasks, deduplicate_timestamps, timestamp_to_events,
      timestamp_to_events_from, addIndex, dedupSweep, validate_timestamp, planTask,
      ownerIndex, pad3]
    norm_num
    rfl
  · norm_num

theorem C1_clamp_range_witness :
    0 ≤ (0 : ℚ) * 1000 ∧ (0 : ℚ) * 1000 ≤ max 0 ((50 : ℚ) - 100) :=
  (C1_clamp_range {} [{ description := "click", timestamp_ms := some 1000 }] 50 "shots").1
    1000
    { timestamp_sec := 0, output_dir := "shots",
      output_name := "event_001_1000ms.jpg", event_index := 0 }
    (by
      simp [prepare_extraction_tasks, deduplicate_timestamps, timestamp_to_events,
        timestamp_to_events_from, addIndex, dedupSweep, validate_timestamp, planTask,
        ownerIndex, pad3]
      norm_num
      rfl)

theorem mem_keys_addIndex (m : List (Int × List Nat)) (ts : Int) (i : Nat) (k : Int) :
    k ∈ (addIndex m ts i).map Prod.fst ↔ k ∈ m.map Prod.fst ∨ k = ts := by
  induction m with
  | nil => simp [addIndex]
  | cons p rest ih =>
    obtain ⟨pk, pl⟩ := p
    by_cases h : pk = ts
    · subst h
      simp [addIndex]
      tauto
    · simp only [addIndex, if_neg h, List.map_cons, List.mem_cons, ih]
      tauto

theorem keys_t2e_from (l : List VideoEvent) :
    ∀ (i : Nat) (m : List (Int × List Nat)) (k : Int),
      k ∈ (timestamp_to_events_from i l m).map Prod.fst →
      k ∈ m.map Prod.fst ∨ ∃ e ∈ l, e.timestamp_ms = some k := by
  induction l with
  | nil =>
    intro i m k h
    exact Or.inl h
  | cons e rest ih =>
    intro i m k h
    cases hts : e.timestamp_ms with
    | some ts =>
      rw [timestamp_to_events_from, hts] at h
      rcases ih (i + 1) (addIndex m ts i) k h with hm | ⟨e2, he2, hts2⟩
      · rcases (mem_keys_addIndex m ts i k).mp hm with hm2 | rfl
        · exact Or.inl hm2
        · exact Or.inr ⟨e, List.mem_cons_self e rest, hts⟩
      · exact Or.inr ⟨e2, List.mem_cons_of_mem e he2, hts2⟩
    | none =>
      rw [timestamp_to_events_from, hts] at h
      rcases ih (i + 1) m k h with hm | ⟨e2, he2, hts2⟩
      · exact Or.inl hm
      · exact Or.inr ⟨e2, List.mem_cons_of_mem e he2, hts2⟩

theorem mem_keys_timestamp_to_events (events : List VideoEvent) (k : Int)
    (h : k ∈ (timestamp_to_events events).map Prod.fst) :
    ∃ e ∈ events, e.timestamp_ms = some k := by
  rcases keys_t2e_from events 0 [] k h with hm | he
  · simp at hm
  · exact he

theorem map_fst_filterMap_validate (cfg : ScreenshotConfig) (events : List VideoEvent)
    (dir : String) (l : List Int) (hnn : ∀ ts ∈ l, ¬ ts < 0) :
    (l.filterMap (fun ts =>
      match validate_timestamp ts none with
      | none => none
      | some timestamp_sec =>
        some (ts, planTask cfg events dir ts timestamp_sec))).map Prod.fst = l := by
  induction l with
  | nil => simp
  | cons ts rest ih =>
    have hts : ¬ ts < 0 := hnn ts (List.mem_cons_self ts rest)
    have hv : validate_timestamp ts none = some ((ts : ℚ) / 1000) := by
      unfold validate_timestamp
      simp [hts]
    rw [List.filterMap_cons, hv]
    simp only [List.map_cons]
    rw [ih (fun t ht => hnn t (List.mem_cons_of_mem ts ht))]

/-- Claim C6: when the duration probe failed (`None` duration, modelled by
the `float('inf')` bound), the planner performs no clamping: the plan's
key set is exactly the dedup survivors, in order, and every task's seek
position is the original timestamp converted to seconds, unchanged. -/
theorem C6_unknown_duration_no_clamp (cfg : ScreenshotConfig) (events : List VideoEvent)
    (dir : String)
    (hnn : ∀ e ∈ events, ∀ ts, e.timestamp_ms = some ts → 0 ≤ ts) :
    ((prepare_extraction_tasks cfg events none dir).map Prod.fst =
      deduplicate_timestamps cfg.dedup_threshold_ms
        ((timestamp_to_events events).map Prod.fst)) ∧
    (∀ ts task, (ts, task) ∈ prepare_extraction_tasks cfg events none dir →
      task.timestamp_sec = (ts : ℚ) / 1000) := by
  constructor
  · unfold prepare_extraction_tasks
    apply map_fst_filterMap_validate
    intro ts hts
    have hmem := deduplicate_subset cfg.dedup_threshold_ms _ ts hts
    obtain ⟨e, he, hets⟩ := mem_keys_timestamp_to_events events ts hmem
    have := hnn e he ts hets
    omega
  · intro ts task hmem
    obtain ⟨-, sec, hv, rfl⟩ := (mem_prepare_iff cfg events none dir ts task).mp hmem
    unfold validate_timestamp at hv
    by_cases hneg : ts < 0
    · simp [hneg] at hv
    · simp only [hneg, if_false] at hv
      cases hv
      rfl

theorem C6_unknown_duration_no_clamp_witness :
    (prepare_extraction_tasks {}
        [{ description := "click", timestamp_ms := some 1000 },
         { description := "type", timestamp_ms := some 4000 }] none "shots").map Prod.fst =
      deduplicate_timestamps 500
        ((timestamp_to_events
          [{ description := "click", timestamp_ms := some 1000 },
           { description := "type", timestamp_ms := some 4000 }]).map Prod.fst) :=
  (C6_unknown_duration_no_clamp {}
    [{ description := "click", timestamp_ms := some 1000 },
     { description := "type", timestamp_ms := some 4000 }] "shots"
    (by
      intro e he ts hts
      rcases List.mem_cons.mp he with rfl | he2
      · cases hts; omega
      · rcases List.mem_cons.mp he2 with rfl | he3
        · cases hts; omega
        · simp at he3)).1

theorem batch_eq_map (tasks : List (Int × ExtractionTask)) (c : Int → TaskCompletion) :
    batch_extract_screenshots tasks c =
      tasks.map (fun p => (p.1,
        match c p.1 with
        | .result true => some p.2.output_name
        | _ => none)) := by
  unfold batch_extract_screenshots
  apply List.map_congr_left
  intro p _
  cases hc : c p.1 with
  | result b => cases b <;> simp [hc]
  | raised => simp [hc]

theorem lookup_map_keyed (g : Int → ExtractionTask → Option String)
    (tasks : List (Int × ExtractionTask)) (ts : Int) :
    (tasks.map (fun p => (p.1, g p.1 p.2))).lookup ts =
      (tasks.lookup ts).map (fun task => g ts task) := by
  induction tasks with
  | nil => simp
  | cons p rest ih =>
    obtain ⟨k, task⟩ := p
    by_cases h : ts = k
    · subst h
      simp [List.lookup_cons]
    · have hbeq : (ts == k) = false := beq_false_of_ne h
      simp [List.lookup_cons, hbeq, ih]

/-- Claim C4: the executor's outcome map has exactly the plan's timestamps
as keys (in plan order, so each task's completion appears exactly once);
the entry for a timestamp is the task's artifact name when its
completion succeeded, and `None` when it returned failure or raised —
failures are recorded, never propagated — and the entry depends only on
that task's own completion; a single extraction succeeds exactly when
the tool exited 0 and the output file exists (non-zero exit, timeout,
missing output and raised exceptions are all recorded as failure). -/
theorem C4_executor_outcome_map (tasks : List (Int × ExtractionTask))
    (completion : Int → TaskCompletion) :
    ((batch_extract_screenshots tasks completion).map Prod.fst = tasks.map Prod.fst) ∧
    (∀ ts : Int, (batch_extract_screenshots tasks completion).lookup ts =
      (tasks.lookup ts).map (fun task =>
        match completion ts with
        | .result true => some task.output_name
        | _ => none)) ∧
    (∀ run : ToolRun, extract_single_screenshot run = true ↔
      run.outcome = .completed 0 ∧ run.outputExists = true) := by
  refine ⟨?_, ?_, ?_⟩
  · rw [batch_eq_map, List.map_map]
    rfl
  · intro ts
    rw [batch_eq_map]
    exact lookup_map_keyed (fun k task =>
      match completion k with
      | .result true => some task.output_name
      | _ => none) tasks ts
  · intro run
    obtain ⟨outcome, ex⟩ := run
    cases outcome with
    | completed rc =>
      simp only [extract_single_screenshot, Bool.and_eq_true, beq_iff_eq]
      constructor
      · rintro ⟨rfl, hex⟩
        exact ⟨rfl, hex⟩
      · rintro ⟨h, hex⟩
        cases h
        exact ⟨rfl, hex⟩
    | timeout => simp [extract_single_screenshot]
    | raised => simp [extract_single_screenshot]

theorem C4_executor_outcome_map_witness :
    (batch_extract_screenshots
      [(1000, { timestamp_sec := 1, output_dir := "shots",
                output_name := "event_001_1000ms.jpg", event_index := 0 }),
       (2000, { timestamp_sec := 2, output_dir := "shots",
                output_name := "event_002_2000ms.jpg", event_index := 1 })]
      (fun ts => if ts = 1000 then .raised else .result true)).map Prod.fst =
    ([(1000, { timestamp_sec := 1, output_dir := "shots",
               output_name := "event_001_1000ms.jpg", event_index := 0 }),
      (2000, { timestamp_sec := 2, output_dir := "shots",
               output_name := "event_002_2000ms.jpg", event_index := 1 })] :
      List (Int × ExtractionTask)).map Prod.fst :=
  (C4_executor_outcome_map
    [(1000, { timestamp_sec := 1, output_dir := "shots",
              output_name := "event_001_1000ms.jpg", event_index := 0 }),
     (2000, { timestamp_sec := 2, output_dir := "shots",
              output_name := "event_002_2000ms.jpg", event_index := 1 })]
    (fun ts => if ts = 1000 then .raised else .result true)).1

theorem mem_of_lookup_eq_some {l : List (Int × Option String)} {k : Int}
    {b : Option String} (h : l.lookup k = some b) : (k, b) ∈ l := by
  obtain ⟨l₁, l₂, rfl, -⟩ := List.lookup_eq_some_iff.mp h
  exact List.mem_append.mpr (Or.inr (List.mem_cons_self _ _))

theorem update_event_ts_none (cfg : ScreenshotConfig)
    (results : List (Int × Option String)) (e : VideoEvent)
    (h : e.timestamp_ms = none) :
    update_event_with_screenshot cfg results e = e := by
  unfold update_event_with_screenshot
  rw [h]

theorem update_event_no_key (cfg : ScreenshotConfig)
    (results : List (Int × Option String)) (e : VideoEvent) (ts : Int)
    (h1 : e.timestamp_ms = some ts) (h2 : results.lookup ts = none) :
    update_event_with_screenshot cfg results e = e := by
  unfold update_event_with_screenshot
  simp only [h1, h2]

theorem update_event_failed (cfg : ScreenshotConfig)
    (results : List (Int × Option String)) (e : VideoEvent) (ts : Int)
    (h1 : e.timestamp_ms = some ts) (h2 : results.lookup ts = some none) :
    update_event_with_screenshot cfg results e = e := by
  unfold update_event_with_screenshot
  simp only [h1, h2]

theorem update_event_success (cfg : ScreenshotConfig)
    (results : List (Int × Option String)) (e : VideoEvent) (ts : Int) (name : String)
    (h1 : e.timestamp_ms = some ts) (h2 : results.lookup ts = some (some name))
    (h3 : name ≠ "") :
    update_event_with_screenshot cfg results e =
      { e with screenshot_path := some (cfg.screenshot_subdir ++ "/" ++ name) } := by
  unfold update_event_with_screenshot
  simp only [h1, h2, if_neg h3]

/-- Claim C7: the result binder sets an event's screenshot reference to
the artifact name namespaced under the screenshot subdirectory exactly
when the event's timestamp is a key of the outcome map carrying a
successful (non-`None`, non-empty) artifact name; on a missing key or a
failed outcome the event is returned with its screenshot reference as
it was (absent stays absent), and no field other than
`screenshot_path` is ever modified.  The hypothesis that no successful
outcome carries an empty artifact name always holds for executor
outcomes, whose names end in `ms.{format}`. -/
theorem C7_binder_sets_reference (cfg : ScreenshotConfig)
    (results : List (Int × Option String))
    (hne : ∀ p ∈ results, ∀ name, p.2 = some name → name ≠ "")
    (events : List VideoEvent) (i : Nat) (e : VideoEvent)
    (he : events.get? i = some e) :
    ∃ e2, (update_events_with_screenshots cfg events results).get? i = some e2 ∧
      (e2.timestamp_ms = e.timestamp_ms ∧ e2.event_type = e.event_type ∧
       e2.tool = e.tool ∧ e2.description = e.description ∧
       e2.workflow_step = e.workflow_step ∧
       e2.confidence_score = e.confidence_score ∧
       e2.audio_transcript = e.audio_transcript) ∧
      e2.screenshot_path =
        (match e.timestamp_ms with
         | none => e.screenshot_path
         | some ts =>
           match results.lookup ts with
           | some (some name) => some (cfg.screenshot_subdir ++ "/" ++ name)
           | _ => e.screenshot_path) := by
  refine ⟨update_event_with_screenshot cfg results e, ?_, ?_⟩
  · unfold update_events_with_screenshots
    rw [List.get?_map, he]
    rfl
  · cases hts : e.timestamp_ms with
    | none =>
      rw [update_event_ts_none cfg results e hts]
      exact ⟨⟨hts, rfl, rfl, rfl, rfl, rfl, rfl⟩, rfl⟩
    | some ts =>
      cases hl : results.lookup ts with
      | none =>
        rw [update_event_no_key cfg results e ts hts hl]
        refine ⟨⟨hts, rfl, rfl, rfl, rfl, rfl, rfl⟩, ?_⟩
        simp only [hl]
      | some entry =>
        cases entry with
        | none =>
          rw [update_event_failed cfg results e ts hts hl]
          refine ⟨⟨hts, rfl, rfl, rfl, rfl, rfl, rfl⟩, ?_⟩
          simp only [hl]
        | some name =>
          have hname : name ≠ "" :=
            hne (ts, some name) (mem_of_lookup_eq_some hl) name rfl
          rw [update_event_success cfg results e ts name hts hl hname]
          refine ⟨⟨hts, rfl, rfl, rfl, rfl, rfl, rfl⟩, ?_⟩
          simp only [hl]

theorem C7_binder_sets_reference_witness :
    ∃ e2, (update_events_with_screenshots {}
        [{ description := "click", timestamp_ms := some 1000 }]
        [(1000, some "event_001_1000ms.jpg")]).get? 0 = some e2 ∧
      (e2.timestamp_ms = some 1000 ∧ e2.event_type = none ∧
       e2.tool = none ∧ e2.description = "click" ∧
       e2.workflow_step = none ∧ e2.confidence_score = none ∧
       e2.audio_transcript = none) ∧
      e2.screenshot_path =
        (match (some 1000 : Option Int) with
         | none => none
         | some ts =>
           match [((1000 : Int), some "event_001_1000ms.jpg")].lookup ts with
           | some (some name) => some ("screenshots" ++ "/" ++ name)
           | _ => none) :=
  C7_binder_sets_reference {} [(1000, some "event_001_1000ms.jpg")]
    (by decide)
    [{ description := "click", timestamp_ms := some 1000 }] 0
    { description := "click", timestamp_ms := some 1000 }
    (by rfl)

theorem lookup_eq_none_of_not_mem_keys {l : List (Int × Option String)} {k : Int}
    (h : k ∉ l.map Prod.fst) : l.lookup k = none := by
  rw [List.lookup_eq_none_iff]
  intro p hp
  have hne : k ≠ p.1 := by
    intro rfl2
    exact h (List.mem_map.mpr ⟨p, hp, rfl2.symm⟩)
  exact bne_iff_ne.mpr hne

theorem keys_batch (tasks : List (Int × ExtractionTask)) (c : Int → TaskCompletion) :
    (batch_extract_screenshots tasks c).map Prod.fst = tasks.map Prod.fst := by
  rw [batch_eq_map, List.map_map]
  rfl

/-- Claim C10: outcomes are bound to events by exact timestamp equality
only — an event whose timestamp did not survive deduplication (so it is
not a key of the outcome map) is returned completely unchanged by the
end-to-end plan/execute/bind pipeline, whatever the completions (in
particular even when extraction at its cluster's kept representative
succeeded). -/
theorem C10_exact_timestamp_binding (cfg : ScreenshotConfig) (events : List VideoEvent)
    (dur : Option ℚ) (dir : String) (completion : Int → TaskCompletion)
    (i : Nat) (e : VideoEvent) (ts : Int)
    (he : events.get? i = some e) (hts : e.timestamp_ms = some ts)
    (hdrop : ts ∉ deduplicate_timestamps cfg.dedup_threshold_ms
      ((timestamp_to_events events).map Prod.fst)) :
    (update_events_with_screenshots cfg events
      (batch_extract_screenshots (prepare_extraction_tasks cfg events dur dir)
        completion)).get? i = some e := by
  have hknot : ts ∉ (prepare_extraction_tasks cfg events dur dir).map Prod.fst := by
    intro hmem2
    obtain ⟨p, hp, hfst⟩ := List.mem_map.mp hmem2
    obtain ⟨tsp, task⟩ := p
    cases hfst
    exact hdrop ((mem_prepare_iff cfg events dur dir _ task).mp hp).1
  have hlook : (batch_extract_screenshots (prepare_extraction_tasks cfg events dur dir)
      completion).lookup ts = none := by
    apply lookup_eq_none_of_not_mem_keys
    rw [keys_batch]
    exact hknot
  unfold update_events_with_screenshots
  rw [List.get?_map, he]
  rw [Option.map_some']
  rw [update_event_no_key cfg _ e ts hts hlook]

theorem C10_exact_timestamp_binding_witness :
    (batch_extract_screenshots
        (prepare_extraction_tasks {}
          [{ description := "click", timestamp_ms := some 1000 },
           { description := "type", timestamp_ms := some 1200 }] none "shots")
        (fun _ => .result true)).lookup 1000 = some (some "event_001_1000ms.jpg") ∧
    (update_events_with_screenshots {}
      [{ description := "click", timestamp_ms := some 1000 },
       { description := "type", timestamp_ms := some 1200 }]
      (batch_extract_screenshots
        (prepare_extraction_tasks {}
          [{ description := "click", timestamp_ms := some 1000 },
           { description := "type", timestamp_ms := some 1200 }] none "shots")
        (fun _ => .result true))).get? 1 =
      some { description := "type", timestamp_ms := some 1200 } := by
  constructor
  · simp [prepare_extraction_tasks, deduplicate_timestamps, timestamp_to_events,
      timestamp_to_events_from, addIndex, dedupSweep, validate_timestamp, planTask,
      ownerIndex, pad3, batch_extract_screenshots, List.lookup]
    rfl
  · exact C10_exact_timestamp_binding {}
      [{ description := "click", timestamp_ms := some 1000 },
       { description := "type", timestamp_ms := some 1200 }] none "shots"
      (fun _ => .result true) 1
      { description := "type", timestamp_ms := some 1200 } 1200
      (by rfl) (by rfl) (by decide)

theorem lookup_addIndex_self (m : List (Int × List Nat)) (ts : Int) (i : Nat) :
    (addIndex m ts i).lookup ts = some (((m.lookup ts).getD []) ++ [i]) := by
  induction m with
  | nil => simp [addIndex, List.lookup]
  | cons p rest ih =>
    obtain ⟨k, l⟩ := p
    by_cases h : k = ts
    · subst h
      simp [addIndex, List.lookup_cons]
    · have hbeq : (ts == k) = false := beq_false_of_ne (Ne.symm h)
      simp [addIndex, if_neg h, List.lookup_cons, hbeq, ih]

theorem lookup_addIndex_ne (m : List (Int × List Nat)) (ts : Int) (i : Nat) (k : Int)
    (h : k ≠ ts) : (addIndex m ts i).lookup k = m.lookup k := by
  induction m with
  | nil => simp [addIndex, List.lookup_cons, beq_false_of_ne h, List.lookup]
  | cons p rest ih =>
    obtain ⟨pk, pl⟩ := p
    by_cases h2 : pk = ts
    · subst h2
      simp [addIndex, List.lookup_cons, beq_false_of_ne h]
    · by_cases h3 : k = pk
      · subst h3
        simp [addIndex, if_neg h2, List.lookup_cons]
      · have hbeq : (k == pk) = false := beq_false_of_ne h3
        simp [addIndex, if_neg h2, List.lookup_cons, hbeq, ih]

theorem lookup_t2e_from (l : List VideoEvent) :
    ∀ (i : Nat) (m : List (Int × List Nat)) (ts : Int),
      (timestamp_to_events_from i l m).lookup ts =
        (match m.lookup ts with
         | some v => some (v ++ idxsFrom ts i l)
         | none =>
           if idxsFrom ts i l = [] then none else some (idxsFrom ts i l)) := by
  induction l with
  | nil =>
    intro i m ts
    rw [timestamp_to_events_from]
    cases m.lookup ts <;> simp [idxsFrom]
  | cons e rest ih =>
    intro i m ts
    cases hts : e.timestamp_ms with
    | some ts2 =>
      rw [timestamp_to_events_from, hts]
      by_cases heq : ts2 = ts
      · subst heq
        rw [ih (i + 1) (addIndex m ts2 i) ts2]
        rw [lookup_addIndex_self]
        have hidx : idxsFrom ts2 i (e :: rest) = i :: idxsFrom ts2 (i + 1) rest := by
          rw [idxsFrom, if_pos hts]
        rw [hidx]
        cases m.lookup ts2 with
        | none => simp
        | some v => simp

      · have hk : ts ≠ ts2 := Ne.symm heq
        rw [ih (i + 1) (addIndex m ts2 i) ts]
        rw [lookup_addIndex_ne m ts2 i ts hk]
        have hidx : idxsFrom ts i (e :: rest) = idxsFrom ts (i + 1) rest := by
          rw [idxsFrom, if_neg]
          rw [hts]
          intro hcontra
          exact heq (Option.some.inj hcontra)
        rw [hidx]
    | none =>
      rw [timestamp_to_events_from, hts]
      rw [ih (i + 1) m ts]
      have hidx : idxsFrom ts i (e :: rest) = idxsFrom ts (i + 1) rest := by
        rw [idxsFrom, if_neg]
        rw [hts]
        intro hcontra
        cases hcontra
      rw [hidx]

theorem lookup_timestamp_to_events (events : List VideoEvent) (ts : Int) :
    (timestamp_to_events events).lookup ts =
      if idxsFrom ts 0 events = [] then none else some (idxsFrom ts 0 events) := by
  unfold timestamp_to_events
  rw [lookup_t2e_from]
  rfl

theorem head?_idxsFrom (ts : Int) (l : List VideoEvent) :
    ∀ i, (idxsFrom ts i l).head? =
      l.findIdx? (fun e => e.timestamp_ms == some ts) i := by
  induction l with
  | nil => intro i; simp [idxsFrom]
  | cons e rest ih =>
    intro i
    by_cases h : e.timestamp_ms = some ts
    · have hb : (e.timestamp_ms == some ts) = true := beq_iff_eq.mpr h
      simp [idxsFrom, h, List.findIdx?_cons, hb]
    · have hb : (e.timestamp_ms == some ts) = false := beq_false_of_ne h
      simp [idxsFrom, h, List.findIdx?_cons, hb, ih]

/-- The planner's "owning event index" for a collected timestamp is the
index of the first event carrying exactly that timestamp. -/
theorem ownerIndex_eq_findIdx (events : List VideoEvent) (ts : Int)
    (hmem : ts ∈ (timestamp_to_events events).map Prod.fst) :
    events.findIdx? (fun e => e.timestamp_ms == some ts) = some (ownerIndex events ts) := by
  have hsome : ((timestamp_to_events events).lookup ts).isSome := by
    rw [List.lookup_isSome_iff]
    obtain ⟨p, hp, hfst⟩ := List.mem_map.mp hmem
    exact ⟨p, hp, beq_iff_eq.mpr hfst.symm⟩
  by_cases hemp : idxsFrom ts 0 events = []
  · rw [lookup_timestamp_to_events, if_pos hemp] at hsome
    simp at hsome
  · have hlook : (timestamp_to_events events).lookup ts = some (idxsFrom ts 0 events) := by
      rw [lookup_timestamp_to_events, if_neg hemp]
    cases hx : idxsFrom ts 0 events with
    | nil => exact absurd hx hemp
    | cons j rest2 =>
      have hown : ownerIndex events ts = j := by
        unfold ownerIndex
        rw [hlook, hx]
        rfl
      rw [hown]
      have hh := head?_idxsFrom ts events 0
      rw [hx] at hh
      exact hh.symm

theorem map_fst_filterMap_sublist (g : Int → Option (Int × ExtractionTask))
    (hg : ∀ ts p, g ts = some p → p.1 = ts) (l : List Int) :
    List.Sublist ((l.filterMap g).map Prod.fst) l := by
  induction l with
  | nil => simp
  | cons ts rest ih =>
    rw [List.filterMap_cons]
    cases hgt : g ts with
    | none => exact ih.trans (List.sublist_cons_self ts rest)
    | some p =>
      rw [List.map_cons]
      rw [hg ts p hgt]
      exact ih.cons₂ ts

theorem sorted_dedup (threshold : Int) (l : List Int) :
    List.Pairwise (· < ·) (deduplicate_timestamps threshold l) := by
  unfold deduplicate_timestamps
  have hs : List.Sorted (· ≤ ·) (List.insertionSort (· ≤ ·) l.dedup) :=
    List.sorted_insertionSort _ _
  have hn : (List.insertionSort (· ≤ ·) l.dedup).Nodup :=
    ((List.perm_insertionSort _ _).nodup_iff).mpr (List.nodup_dedup l)
  have hlt : List.Pairwise (· < ·) (List.insertionSort (· ≤ ·) l.dedup) := by
    refine (hs.and hn).imp ?_
    rintro a b ⟨hle, hne⟩
    exact lt_of_le_of_ne hle hne
  cases hsort : List.insertionSort (· ≤ ·) l.dedup with
  | nil => simp
  | cons h t =>
    rw [hsort] at hlt
    exact hlt.sublist ((dedupSweep_sublist threshold t h).cons₂ h)

theorem t2e_from_all_none (l : List VideoEvent) :
    ∀ (i : Nat) (m : List (Int × List Nat)), (∀ e ∈ l, e.timestamp_ms = none) →
      timestamp_to_events_from i l m = m := by
  induction l with
  | nil => intro i m _; rfl
  | cons e rest ih =>
    intro i m h
    rw [timestamp_to_events_from, h e (List.mem_cons_self e rest)]
    exact ih (i + 1) m (fun e2 he2 => h e2 (List.mem_cons_of_mem e he2))

/-- Claim C8: the planner is a pure function (re-running it on the same
inputs yields the identical plan), depends on the candidate set only
through its set of values, returns tasks in strictly ascending timestamp
order, names every task by the owning (first-carrying) event index and
the original pre-clamp timestamp, and maps empty or all-dropped input to
the empty plan rather than an error. -/
theorem C8_plan_deterministic (cfg : ScreenshotConfig) (events : List VideoEvent)
    (dur : Option ℚ) (dir : String) :
    (prepare_extraction_tasks cfg events dur dir =
      prepare_extraction_tasks cfg events dur dir) ∧
    (∀ l1 l2 : List Int, l1.toFinset = l2.toFinset → ∀ thr : Int,
      deduplicate_timestamps thr l1 = deduplicate_timestamps thr l2) ∧
    List.Pairwise (· < ·) ((prepare_extraction_tasks cfg events dur dir).map Prod.fst) ∧
    (∀ ts task, (ts, task) ∈ prepare_extraction_tasks cfg events dur dir →
      task.output_name = "event_" ++ pad3 (task.event_index + 1) ++ "_" ++ toString ts
        ++ "ms." ++ cfg.image_format ∧
      events.findIdx? (fun e => e.timestamp_ms == some ts) = some task.event_index) ∧
    (prepare_extraction_tasks cfg [] dur dir = []) ∧
    ((∀ e ∈ events, e.timestamp_ms = none) →
      prepare_extraction_tasks cfg events dur dir = []) := by
  refine ⟨rfl, ?_, ?_, ?_, ?_, ?_⟩
  · intro l1 l2 hset thr
    unfold deduplicate_timestamps
    have hsorteq : List.insertionSort (· ≤ ·) l1.dedup =
        List.insertionSort (· ≤ ·) l2.dedup := by
      apply @List.eq_of_perm_of_sorted Int (· ≤ ·) ⟨fun _ _ h1 h2 => le_antisymm h1 h2⟩
      · exact (List.perm_insertionSort _ _).trans
          ((List.toFinset_eq_iff_perm_dedup.mp hset).trans
            (List.perm_insertionSort (· ≤ ·) l2.dedup).symm)
      · exact List.sorted_insertionSort _ _
      · exact List.sorted_insertionSort _ _
    rw [hsorteq]
  · unfold prepare_extraction_tasks
    refine List.Pairwise.sublist ?_
      (sorted_dedup cfg.dedup_threshold_ms ((timestamp_to_events events).map Prod.fst))
    apply map_fst_filterMap_sublist
    intro ts p hp
    cases hv : validate_timestamp ts dur with
    | none => rw [hv] at hp; cases hp
    | some sec =>
      rw [hv] at hp
      cases hp
      rfl
  · intro ts task hmem
    obtain ⟨hdedup, sec, hv, rfl⟩ := (mem_prepare_iff cfg events dur dir ts task).mp hmem
    refine ⟨rfl, ?_⟩
    have hkeys : ts ∈ (timestamp_to_events events).map Prod.fst :=
      deduplicate_subset cfg.dedup_threshold_ms _ ts hdedup
    exact ownerIndex_eq_findIdx events ts hkeys
  · rfl
  · intro h
    unfold prepare_extraction_tasks timestamp_to_events
    rw [t2e_from_all_none events 0 [] h]
    rfl

theorem C8_plan_deterministic_witness :
    deduplicate_timestamps 500 [5, 3, 3] = deduplicate_timestamps 500 [3, 5] ∧
    prepare_extraction_tasks {} [{ description := "idle" }] none "shots" = [] :=
  ⟨(C8_plan_deterministic {} [] none "shots").2.1 [5, 3, 3] [3, 5] (by decide) 500,
   (C8_plan_deterministic {} [{ description := "idle" }] none "shots").2.2.2.2.2
     (by decide)⟩

/-- Claim C3 (amended): the probe tries its three strategies in fixed
priority order and returns the first strategy's value — a strategy
yields a value exactly when its invocation completed with exit code 0,
its report parsed, the relevant field is present, truthy and not
`"N/A"`, and coerces to a number; no positivity (or finiteness) check
is performed on that number.  A strategy that timed out, raised, exited
non-zero, or whose report is malformed yields nothing and is skipped
without retry, and when all three yield nothing the probe returns
`None`. -/
theorem C3_probe_first_usable (env : ProbeEnv) :
    (∀ d : ℚ, get_video_duration_ms env = some d ↔
      (runMethod1 env.method1 = some d ∨
       (runMethod1 env.method1 = none ∧ runMethod2 env.method2 = some d) ∨
       (runMethod1 env.method1 = none ∧ runMethod2 env.method2 = none ∧
        runMethod3 env.method3 = some d))) ∧
    (get_video_duration_ms env = none ↔
      (runMethod1 env.method1 = none ∧ runMethod2 env.method2 = none ∧
       runMethod3 env.method3 = none)) ∧
    (∀ m : MethodRun, (m = .timeout ∨ m = .raised) →
      runMethod1 m = none ∧ runMethod2 m = none ∧ runMethod3 m = none) ∧
    (∀ (rc : Int) (data : Option FFprobeData), rc ≠ 0 →
      runMethod1 (.completed rc data) = none ∧
      runMethod2 (.completed rc data) = none ∧
      runMethod3 (.completed rc data) = none) ∧
    (∀ rc : Int, runMethod1 (.completed rc none) = none ∧
      runMethod2 (.completed rc none) = none ∧
      runMethod3 (.completed rc none) = none) ∧
    (∀ streams : List StreamData,
      runMethod1 (.completed 0
        (some { format_duration := some (.vstr "N/A"), streams := streams })) = none) := by
  refine ⟨?_, ?_, ?_, ?_, ?_, ?_⟩
  · intro d
    unfold get_video_duration_ms
    cases h1 : runMethod1 env.method1 with
    | some d1 => simp
    | none =>
      cases h2 : runMethod2 env.method2 with
      | some d2 => simp
      | none =>
        cases h3 : runMethod3 env.method3 with
        | some d3 => simp
        | none => simp
  · unfold get_video_duration_ms
    cases h1 : runMethod1 env.method1 with
    | some d1 => simp
    | none =>
      cases h2 : runMethod2 env.method2 with
      | some d2 => simp
      | none =>
        cases h3 : runMethod3 env.method3 with
        | some d3 => simp
        | none => simp
  · rintro m (rfl | rfl) <;> exact ⟨rfl, rfl, rfl⟩
  · intro rc data hrc
    cases data with
    | none => exact ⟨rfl, rfl, rfl⟩
    | some d => exact ⟨by simp [runMethod1, hrc], by simp [runMethod2, hrc],
        by simp [runMethod3, hrc]⟩
  · intro rc
    exact ⟨rfl, rfl, rfl⟩
  · intro streams
    simp [runMethod1, PyVal.truthy, PyVal.isNA]

theorem C3_probe_first_usable_witness :
    runMethod1 MethodRun.timeout = none ∧
    get_video_duration_ms
      { method1 := .timeout, method2 := .raised, method3 := .completed 1 none } = none :=
  ⟨((C3_probe_first_usable
      { method1 := .timeout, method2 := .raised, method3 := .completed 1 none }).2.2.1
      .timeout (Or.inl rfl)).1,
   ((C3_probe_first_usable
      { method1 := .timeout, method2 := .raised, method3 := .completed 1 none }).2.1).mpr
      ⟨rfl, rfl, by simp [runMethod3]⟩⟩

/-- Claim C3 (counterexample to the claim as stated): a format-metadata
duration string of `"0"` is truthy, not `"N/A"`, and parses — so the
first strategy returns `0.0 * 1000 = 0` milliseconds, which is not a
positive number; the probe performs no positivity check, contradicting
"returns the first strategy's result that parses to a finite positive
number". -/
theorem C3_counterexample :
    get_video_duration_ms
      { method1 := .completed 0 (some { format_duration := some (.vstr "0") }),
        method2 := .timeout, method3 := .timeout } = some 0 ∧
    ¬ ((0 : ℚ) > 0) := by
  constructor
  · simp [get_video_duration_ms, runMethod1, PyVal.truthy, PyVal.isNA, PyVal.pyFloat,
      parseDecimal, natVal]
  · norm_num

end ScreenshotExtractor

namespace GeminiClient

theorem pollLoop_active (env : AttemptEnv) :
    ∀ (fuel k : Nat) (f g : UploadedFile), pollLoop env k fuel f = some g →
      g.state_name = "ACTIVE" := by
  intro fuel
  induction fuel with
  | zero =>
    intro k f g h
    rw [pollLoop] at h
    by_cases hs : f.state_name = "ACTIVE"
    · rw [if_pos hs] at h
      cases h
      exact hs
    · rw [if_neg hs] at h
      cases h
  | succ n ih =>
    intro k f g h
    rw [pollLoop] at h
    by_cases hs : f.state_name = "ACTIVE"
    · rw [if_pos hs] at h
      cases h
      exact hs
    · rw [if_neg hs] at h
      cases hg : env.get_file k f.name with
      | none => rw [hg] at h; cases h
      | some f2 =>
        rw [hg] at h
        exact ih (k + 1) f2 g h

theorem runAttempt_active (env : AttemptEnv) (g : UploadedFile)
    (h : runAttempt env = some g) : g.state_name = "ACTIVE" := by
  unfold runAttempt at h
  cases hu : env.upload with
  | none => rw [hu] at h; cases h
  | some f0 =>
    rw [hu] at h
    exact pollLoop_active env 10 1 f0 g h

/-- Claim C5: the readiness gate returns a handle only when that handle's
observed state is ACTIVE; an attempt whose poll budget ends without
ACTIVE (or whose upload/refresh raised) makes the gate start the next
attempt afresh, and when all 3 attempts fail it returns no handle
(models the terminal `raise`). -/
theorem C5_gate_active_or_exhausted (env : Nat → AttemptEnv) :
    (∀ g : UploadedFile, upload_file_with_retry env 3 = some g →
      g.state_name = "ACTIVE") ∧
    (runAttempt (env 0) = none →
      upload_file_with_retry env 3 = upload_file_with_retry_from env 1 2) ∧
    ((∀ i, i < 3 → runAttempt (env i) = none) →
      upload_file_with_retry env 3 = none) := by
  refine ⟨?_, ?_, ?_⟩
  · intro g h
    unfold upload_file_with_retry at h
    rw [upload_file_with_retry_from] at h
    cases h0 : runAttempt (env 0) with
    | some f =>
      rw [h0] at h
      cases h
      exact runAttempt_active (env 0) g h0
    | none =>
      rw [h0] at h
      rw [upload_file_with_retry_from] at h
      cases h1 : runAttempt (env 1) with
      | some f =>
        rw [h1] at h
        cases h
        exact runAttempt_active (env 1) g h1
      | none =>
        rw [h1] at h
        rw [upload_file_with_retry_from] at h
        cases h2 : runAttempt (env 2) with
        | some f =>
          rw [h2] at h
          cases h
          exact runAttempt_active (env 2) g h2
        | none =>
          rw [h2] at h
          rw [upload_file_with_retry_from] at h
          cases h
  · intro h0
    unfold upload_file_with_retry
    rw [upload_file_with_retry_from, h0]
  · intro hall
    unfold upload_file_with_retry
    rw [upload_file_with_retry_from, hall 0 (by omega)]
    rw [upload_file_with_retry_from, hall 1 (by omega)]
    rw [upload_file_with_retry_from, hall 2 (by omega)]
    rw [upload_file_with_retry_from]

theorem C5_gate_active_or_exhausted_witness :
    upload_file_with_retry neverActiveEnv 3 = none :=
  (C5_gate_active_or_exhausted neverActiveEnv).2.2 (fun i _ => by
    cases i <;> rfl)

end GeminiClient
